import Mathlib

set_option maxRecDepth 8000
set_option maxHeartbeats 1000000

namespace WildfireAgent

/-! Shallow embedding of the session-scoped aggregation pipeline in
`wildfire_agent/main_agent.py`: `_get_session_memory`, `aggregate_costs`,
`compact_aggregated_costs`, `build_cost_table`, `get_last_summary`.
Python floats are modelled as exact rationals; a missing dictionary key is
modelled as `none`. -/

/-- A Python runtime value, as far as the pipeline observes it: `pnum q`
is any value that `float()` coerces successfully (ints, floats, numeric
strings), `pstr s` is a non-coercible string, `pnone` is `None`. -/
inductive PyVal
  | pnum (q : ℚ)
  | pstr (s : String)
  | pnone
deriving DecidableEq

/-- Python `float(v)`: `some` of the numeric value when coercion succeeds,
`none` when `float()` raises. -/
def pyFloat : PyVal → Option ℚ
  | .pnum q => some q
  | .pstr _ => none
  | .pnone => none

/-- One raw cost record (a Python dict). Each field is `none` when
`r.get(key)` would return `None` (key absent or value `None`). -/
structure Record where
  region : Option PyVal
  category : Option PyVal
  cost : Option PyVal
  hours : Option PyVal
deriving DecidableEq

/-- Evaluation of `float(r.get(key, 0.0))`: a missing field defaults to
`0.0`; a present field is coerced by `float`, which may raise (`none`). -/
def coerceField : Option PyVal → Option ℚ
  | none => some 0
  | some v => pyFloat v

/-- One aggregated bucket dict, as built by `aggregate_costs`: keys
`region`, `category`, `total_cost`, `hours` are always present there. -/
structure AggRow where
  region : Option PyVal
  category : Option PyVal
  total_cost : ℚ
  hours : ℚ
deriving DecidableEq

/-- The grouping key `(r.get("region"), r.get("category"))`. -/
abbrev Key := Option PyVal × Option PyVal

/-- Grouping key of a raw record. -/
def recKey (r : Record) : Key := (r.region, r.category)

/-- Grouping key of an aggregated bucket. -/
def rowKey (a : AggRow) : Key := (a.region, a.category)

/-- Cost of a record under the hypothesis it coerces (missing = 0.0). -/
def recCost (r : Record) : ℚ := (coerceField r.cost).getD 0

/-- The `totals[key]` update of `aggregate_costs`: find the bucket with
this key in the insertion-ordered dict (modelled as a list), add `cost`
and `hours` to it, or append a fresh bucket on first sight. -/
def addToBucket : List AggRow → Key → ℚ → ℚ → List AggRow
  | [], k, c, h => [⟨k.1, k.2, c, h⟩]
  | row :: rest, k, c, h =>
    if rowKey row = k then
      { row with total_cost := row.total_cost + c, hours := row.hours + h } :: rest
    else
      row :: addToBucket rest k c h

/-- Error kind raised by `aggregate_costs` when `float()` fails on a
record's `cost` or `hours` field (the spec's `InvalidRecordField`). -/
inductive AggError
  | InvalidRecordField
deriving DecidableEq

/-- The `for r in records` loop of `aggregate_costs`: coerce the numeric
fields of each record (raising on the first failure) and fold the totals
dict. -/
def buildTotals : List Record → List AggRow → Except AggError (List AggRow)
  | [], acc => .ok acc
  | r :: rest, acc =>
    match coerceField r.cost, coerceField r.hours with
    | some c, some h => buildTotals rest (addToBucket acc (recKey r) c h)
    | _, _ => .error .InvalidRecordField

/-- The comparison realised by `sort(key=lambda x: x["total_cost"], reverse=True)`:
a stable descending sort on `total_cost`. -/
def aggLE (a b : AggRow) : Bool := decide (b.total_cost ≤ a.total_cost)

/-- One compacted/render input row (a dict whose keys may be missing:
`build_cost_table` reads some of them with `.get` defaults and some by
direct indexing). -/
structure Row where
  region : Option String
  category : Option String
  total_cost : Option ℚ
  hours : Option ℚ
deriving DecidableEq

/-- The sort key `float(x.get("total_cost", 0.0))` of `compact_aggregated_costs`. -/
def rowCost (x : Row) : ℚ := x.total_cost.getD 0

/-- The comparison realised by `sorted(..., key=..., reverse=True)` in
`compact_aggregated_costs`. -/
def rowLE (a b : Row) : Bool := decide (rowCost b ≤ rowCost a)

/-- Python slice `xs[:k]` for an arbitrary integer bound. -/
def pySliceTo (k : Int) (xs : List α) : List α :=
  if k < 0 then xs.take (xs.length - k.natAbs) else xs.take k.toNat

/-- The per-session memory dict created by `_get_session_memory`. -/
structure SessionMemory where
  last_year : Option Int
  last_raw_records : Option (List Record)
  last_aggregated : Option (List AggRow)
  last_compacted : Option (List Row)
  last_summary : Option String
  last_search_query : Option String
  last_search_results : Option String
deriving DecidableEq

/-- The process-wide `SESSION_MEMORY` dict, keyed by session id. -/
def Store := String → Option SessionMemory

/-- The store before any session has been created. -/
def emptyStore : Store := fun _ => none

/-- The all-`None` memory installed on first access for a session id. -/
def freshMemory : SessionMemory := ⟨none, none, none, none, none, none, none⟩

/-- Write one session's memory into the store. -/
def setStore (st : Store) (session_id : String) (m : SessionMemory) : Store :=
  fun s => if s = session_id then some m else st s

/-- `_get_session_memory`: return the memory for `session_id`, creating a
fresh all-`None` entry when absent. -/
def _get_session_memory (session_id : String) (st : Store) : SessionMemory × Store :=
  match st session_id with
  | some m => (m, st)
  | none => (freshMemory, setStore st session_id freshMemory)

/-- The memory `_get_session_memory` hands back (existing or fresh). -/
def memOrFresh (st : Store) (session_id : String) : SessionMemory :=
  (st session_id).getD freshMemory

/-- `aggregate_costs(records, session_id)`: group by (region, category),
sum `cost` and `hours` (raising `InvalidRecordField` on a non-coercible
numeric field, before any store write), sort descending by `total_cost`,
and record the result as `last_aggregated`. -/
def aggregate_costs (records : List Record) (session_id : String) (st : Store) :
    Except AggError (List AggRow) × Store :=
  match buildTotals records [] with
  | .error e => (.error e, st)
  | .ok totals =>
    let aggregated_list := totals.mergeSort aggLE
    let ms := _get_session_memory session_id st
    (.ok aggregated_list,
      setStore ms.2 session_id { ms.1 with last_aggregated := some aggregated_list })

/-- `compact_aggregated_costs(aggregated, max_rows, session_id)`: re-sort
defensively by descending `total_cost`, keep the slice `[:max_rows]`, and
record the result as `last_compacted`. -/
def compact_aggregated_costs (aggregated : List Row) (max_rows : Int)
    (session_id : String) (st : Store) : List Row × Store :=
  let sorted_rows := aggregated.mergeSort rowLE
  let compacted := pySliceTo max_rows sorted_rows
  let ms := _get_session_memory session_id st
  (compacted, setStore ms.2 session_id { ms.1 with last_compacted := some compacted })

/-! Reporter. -/

/-- Errors `build_cost_table` can raise: a `KeyError` from direct dict
indexing in the narrative section, or the `ValueError` of `max` on an
empty sequence (unreachable behind the emptiness guard). -/
inductive RenderError
  | keyError (key : String)
  | valueError
deriving DecidableEq

/-- The dynamically-typed `aggregated` argument of `build_cost_table`:
either an in-memory list of rows or a serialized (JSON) string. -/
inductive BuildInput
  | rows (rs : List Row)
  | str (s : String)

/-- Dispatch on `isinstance(aggregated, str)`: a string input goes through
`json.loads`, modelled by the abstract `parse` (with `none` meaning the
parse raises, caught and turned into the diagnostic string). -/
def resolveInput (parse : String → Option (List Row)) : BuildInput → Option (List Row)
  | .rows rs => some rs
  | .str s => parse s

/-- Banker's rounding of an exact rational to the nearest integer, ties to
even: the rounding Python applies when formatting a decimal value. -/
def roundHalfEven (q : ℚ) : Int :=
  let n := q.floor
  let f := q - n
  if f < (1 : ℚ)/2 then n
  else if (1 : ℚ)/2 < f then n + 1
  else if n % 2 = 0 then n else n + 1

/-- Split a reversed digit string into groups of three. -/
def chunk3 : List Char → List (List Char)
  | [] => []
  | [a] => [[a]]
  | [a, b] => [[a, b]]
  | a :: b :: c :: rest => [a, b, c] :: chunk3 rest

/-- Insert thousands separators into a digit string. -/
def groupDigits (s : String) : String :=
  String.intercalate "," (((chunk3 s.data.reverse).map (fun c => String.mk c.reverse)).reverse)

/-- Left-pad a digit string with zeros to the given width. -/
def padZeros (width : ℕ) (s : String) : String :=
  if s.length < width then String.mk (List.replicate (width - s.length) '0') ++ s else s

/-- Render the integer `v` (the value scaled by `10 ^ pow10`) as a fixed
point decimal with `pow10` fraction digits, optionally comma-grouped. -/
def fmtScaled (v : Int) (pow10 : ℕ) (grouped : Bool) : String :=
  let sign := if v < 0 then "-" else ""
  let a := v.natAbs
  let whole := a / 10 ^ pow10
  let frac := a % 10 ^ pow10
  let wholeStr := if grouped then groupDigits (toString whole) else toString whole
  sign ++ wholeStr ++ "." ++ padZeros pow10 (toString frac)

/-- Python format spec `:,.2f` applied to the exact value `q`. -/
def fmtComma2 (q : ℚ) : String := fmtScaled (roundHalfEven (q * 100)) 2 true

/-- Python format spec `:.1f` applied to the exact value `q`. -/
def fmtDot1 (q : ℚ) : String := fmtScaled (roundHalfEven (q * 10)) 1 false

/-- Python `"\n".join(lines)`. -/
def joinNL : List String → String
  | [] => ""
  | [x] => x
  | x :: xs => x ++ "\n" ++ joinNL xs

/-- One table line of `build_cost_table`: every field is read with a
`.get` default, so missing keys cannot raise here. -/
def rowLine (row : Row) : String :=
  (row.region.getD "") ++ " | " ++ (row.category.getD "") ++ " | "
    ++ fmtComma2 (row.total_cost.getD 0) ++ " | " ++ fmtDot1 (row.hours.getD 0)

/-- Direct dict indexing `row[key]`: raises `KeyError` when absent. -/
def getItem (o : Option α) (key : String) : Except RenderError α :=
  match o with
  | some v => .ok v
  | none => .error (.keyError key)

/-- The scanning loop of `max(aggregated, key=lambda x: x["total_cost"])`:
the key of each remaining item is computed in order (raising `KeyError` on
a missing `total_cost`), and the current best is replaced only on a
strictly greater key, so the first maximal row wins. -/
def pyMaxLoop (best : Row) (bestKey : ℚ) : List Row → Except RenderError Row
  | [] => .ok best
  | r :: rest => do
    let k ← getItem r.total_cost "total_cost"
    if bestKey < k then pyMaxLoop r k rest else pyMaxLoop best bestKey rest

/-- `max(aggregated, key=lambda x: x["total_cost"])`. -/
def pyMaxByTotalCost : List Row → Except RenderError Row
  | [] => .error .valueError
  | r :: rest => do
    let k ← getItem r.total_cost "total_cost"
    pyMaxLoop r k rest

/-- `sum(r["total_cost"] for r in rows if r["category"] == cat)`: the
filter indexes `category` of every row and `total_cost` of matching rows,
left to right, accumulating like Python's `sum`. -/
def sumCategoryTotal (cat : String) (acc : ℚ) : List Row → Except RenderError ℚ
  | [] => .ok acc
  | r :: rest => do
    let c ← getItem r.category "category"
    if c = cat then do
      let t ← getItem r.total_cost "total_cost"
      sumCategoryTotal cat (acc + t) rest
    else sumCategoryTotal cat acc rest

/-- The narrative section of `build_cost_table` (the part that indexes
dict keys directly and can raise `KeyError`). -/
def buildNarrative (aggregated : List Row) : Except RenderError String := do
  let top ← pyMaxByTotalCost aggregated
  let top_region ← getItem top.region "region"
  let top_category ← getItem top.category "category"
  let top_cost ← getItem top.total_cost "total_cost"
  let aircraft_total ← sumCategoryTotal "aircraft" 0 aggregated
  let personnel_total ← sumCategoryTotal "personnel" 0 aggregated
  let equipment_total ← sumCategoryTotal "equipment" 0 aggregated
  pure (joinNL
    [ "Here\x27s a summary of the wildfire costs based on the synthetic data:\n",
      "**Key Insights:**",
      "- **Largest Single Bucket:** " ++ top_region ++ " – " ++ top_category
        ++ " at $" ++ fmtComma2 top_cost ++ ".",
      "- **By Category:** Aircraft ($" ++ fmtComma2 aircraft_total ++ "), "
        ++ "Personnel ($" ++ fmtComma2 personnel_total ++ "), "
        ++ "Equipment ($" ++ fmtComma2 equipment_total ++ ").",
      "- Aircraft is the dominant cost driver across regions, "
        ++ "with personnel generally higher than equipment." ])

/-- `build_cost_table(aggregated, session_id)`: parse a string input if
needed (diagnostic string on failure), return the fixed text on empty
input, otherwise build the markdown table, then the narrative (which may
raise `KeyError` before any store write), store the final summary as
`last_summary`, and return it. -/
def build_cost_table (parse : String → Option (List Row)) (input : BuildInput)
    (session_id : String) (st : Store) : Except RenderError String × Store :=
  match resolveInput parse input with
  | none => (.ok "Could not parse aggregated cost data.", st)
  | some aggregated =>
    if aggregated.isEmpty then (.ok "No cost data available.", st)
    else
      let table_md := joinNL
        (["Region | Category | Total Cost ($) | Hours", "---|---|---|---"]
          ++ aggregated.map rowLine)
      match buildNarrative aggregated with
      | .error e => (.error e, st)
      | .ok narrative =>
        let final_summary := table_md ++ "\n\n" ++ narrative
        let ms := _get_session_memory session_id st
        (.ok final_summary,
          setStore ms.2 session_id { ms.1 with last_summary := some final_summary })

/-- The fixed sentinel returned when no summary is stored. -/
def noSummarySentinel : String :=
  "I don\x27t have a previous summary stored yet in this session."

/-- `get_last_summary(session_id)`: read `last_summary` from the session's
memory (created lazily when absent) and return it, or the sentinel when it
is missing or falsy (the empty string). -/
def get_last_summary (session_id : String) (st : Store) : String × Store :=
  let ms := _get_session_memory session_id st
  match ms.1.last_summary with
  | none => (noSummarySentinel, ms.2)
  | some summary =>
    if summary = "" then (noSummarySentinel, ms.2) else (summary, ms.2)

/-- No report is stored for session `s`: the state of the Session Store
with respect to `s` before any `build_cost_table` call for `s` (its memory
is either absent or has `last_summary = None`). -/
def noSummaryStored (s : String) (st : Store) : Prop :=
  ∀ m, st s = some m → m.last_summary = none

/-- Sample rows used to instantiate the universally quantified theorems. -/
def sampleRowA : Row := ⟨some "South", some "aircraft", some 100, some 5⟩

/-- A second sample row with a smaller `total_cost`. -/
def sampleRowB : Row := ⟨some "North", some "personnel", some 30, some 0⟩

/-- A parse function for inputs that are never strings. -/
def noParse : String → Option (List Row) := fun _ => none

/-- Sample records whose fields all coerce. -/
def sampleRecords : List Record :=
  [⟨some (.pstr "South"), some (.pstr "aircraft"), some (.pnum 100), some (.pnum 5)⟩,
   ⟨some (.pstr "South"), some (.pstr "aircraft"), some (.pnum 50), some (.pnum 2)⟩,
   ⟨some (.pstr "North"), some (.pstr "personnel"), some (.pnum 30), none⟩]

/-- A record whose `cost` value cannot be coerced by `float()`. -/
def badRecord : Record :=
  ⟨some (.pstr "South"), some (.pstr "aircraft"), some (.pstr "n/a"), some (.pnum 1)⟩

/-! Helper lemmas about the descending-by-`total_cost` comparison. -/

/-- The compaction comparison is transitive. -/
theorem rowLE_trans : ∀ (a b c : Row), rowLE a b → rowLE b c → rowLE a c := by
  intro a b c h1 h2
  simp only [rowLE, decide_eq_true_eq] at *
  exact le_trans h2 h1

/-- The compaction comparison is total. -/
theorem rowLE_total : ∀ (a b : Row), rowLE a b || rowLE b a := by
  intro a b
  simp only [rowLE]
  rcases le_total (rowCost b) (rowCost a) with h | h <;> simp [h]

/-- The defensive sort of `compact_aggregated_costs` is sorted descending
by the `total_cost` key. -/
theorem pairwise_mergeSort_rowLE (A : List Row) :
    (A.mergeSort rowLE).Pairwise (fun a b => rowCost b ≤ rowCost a) :=
  (List.sorted_mergeSort rowLE_trans rowLE_total A).imp
    (fun h => by simpa [rowLE] using h)

/-- Stability of the defensive sort: rows tied at a given `total_cost` key
keep their original relative order. -/
theorem filter_mergeSort_rowLE (A : List Row) (c : ℚ) :
    (A.mergeSort rowLE).filter (fun r => decide (rowCost r = c))
      = A.filter (fun r => decide (rowCost r = c)) := by
  have hpw : (A.filter (fun r => decide (rowCost r = c))).Pairwise
      (fun a b => rowLE a b = true) := by
    refine List.pairwise_iff_forall_sublist.mpr ?_
    intro a b hab
    have hma : a ∈ A.filter (fun r => decide (rowCost r = c)) :=
      hab.subset (by simp : a ∈ [a, b])
    have hmb : b ∈ A.filter (fun r => decide (rowCost r = c)) :=
      hab.subset (by simp : b ∈ [a, b])
    have hca : rowCost a = c := by
      have := List.of_mem_filter hma
      simpa using this
    have hcb : rowCost b = c := by
      have := List.of_mem_filter hmb
      simpa using this
    simp [rowLE, hca, hcb]
  have hsub : List.Sublist (A.filter (fun r => decide (rowCost r = c)))
      (A.mergeSort rowLE) :=
    List.sublist_mergeSort rowLE_trans rowLE_total hpw (List.filter_sublist A)
  have hsub2 : List.Sublist (A.filter (fun r => decide (rowCost r = c)))
      ((A.mergeSort rowLE).filter (fun r => decide (rowCost r = c))) := by
    have := hsub.filter (fun r => decide (rowCost r = c))
    simpa [List.filter_filter] using this
  have hlen : ((A.mergeSort rowLE).filter (fun r => decide (rowCost r = c))).length
      = (A.filter (fun r => decide (rowCost r = c))).length :=
    ((A.mergeSort_perm rowLE).filter _).length_eq
  exact (hsub2.eq_of_length hlen.symm).symm

/-- C2: for every aggregated sequence `A` and integer `k ≥ 0`,
`compact_aggregated_costs` with `max_rows = k` returns a sequence of
length `min k (len A)`, sorted descending by `total_cost`, with ties kept
in their original relative order (stability), and every retained row's
`total_cost` is at least every dropped row's. -/
theorem compact_aggregated_costs_spec (A : List Row) (k : Int) (sid : String)
    (st : Store) (hk : 0 ≤ k) :
    ((compact_aggregated_costs A k sid st).1.length = min k.toNat A.length) ∧
    ((compact_aggregated_costs A k sid st).1.Pairwise
      (fun a b => rowCost b ≤ rowCost a)) ∧
    (∀ c : ℚ, List.Sublist
      ((compact_aggregated_costs A k sid st).1.filter (fun r => decide (rowCost r = c)))
      (A.filter (fun r => decide (rowCost r = c)))) ∧
    (∃ dropped : List Row,
      ((compact_aggregated_costs A k sid st).1 ++ dropped).Perm A ∧
      ∀ x ∈ (compact_aggregated_costs A k sid st).1, ∀ y ∈ dropped,
        rowCost y ≤ rowCost x) := by
  have hres : (compact_aggregated_costs A k sid st).1
      = (A.mergeSort rowLE).take k.toNat := by
    simp [compact_aggregated_costs, pySliceTo, not_lt.mpr hk]
  refine ⟨?_, ?_, ?_, ?_⟩
  · rw [hres, List.length_take, List.length_mergeSort]
  · rw [hres]
    exact (pairwise_mergeSort_rowLE A).take
  · intro c
    rw [hres, ← filter_mergeSort_rowLE A c]
    exact (List.take_sublist _ _).filter _
  · refine ⟨(A.mergeSort rowLE).drop k.toNat, ?_, ?_⟩
    · rw [hres, List.take_append_drop]
      exact A.mergeSort_perm rowLE
    · intro x hx y hy
      rw [hres] at hx
      exact (pairwise_mergeSort_rowLE A).rel_of_mem_take_of_mem_drop hx hy

/-- Witness for C2 at a concrete two-row input with `k = 1`. -/
theorem compact_aggregated_costs_spec_witness :
    (compact_aggregated_costs [sampleRowA, sampleRowB] 1 "d" emptyStore).1.length
      = min (Int.toNat 1) ([sampleRowA, sampleRowB].length) :=
  (compact_aggregated_costs_spec [sampleRowA, sampleRowB] 1 "d" emptyStore
    (by decide)).1

/-- C7: compaction is idempotent — compacting an already compacted
sequence with the same bound returns it unchanged. -/
theorem compact_aggregated_costs_idempotent (A : List Row) (k : Int)
    (sid sid' : String) (st st' : Store) (hk : 0 ≤ k) :
    (compact_aggregated_costs (compact_aggregated_costs A k sid st).1 k sid' st').1
      = (compact_aggregated_costs A k sid st).1 := by
  have hres : (compact_aggregated_costs A k sid st).1
      = (A.mergeSort rowLE).take k.toNat := by
    simp [compact_aggregated_costs, pySliceTo, not_lt.mpr hk]
  have hpw := @List.Pairwise.take _ _ _ k.toNat
    (List.sorted_mergeSort rowLE_trans rowLE_total A)
  have hsorted : ((A.mergeSort rowLE).take k.toNat).mergeSort rowLE
      = (A.mergeSort rowLE).take k.toNat :=
    List.mergeSort_of_sorted hpw
  have hres2 : (compact_aggregated_costs (compact_aggregated_costs A k sid st).1
        k sid' st').1
      = (((compact_aggregated_costs A k sid st).1).mergeSort rowLE).take k.toNat := by
    simp [compact_aggregated_costs, pySliceTo, not_lt.mpr hk]
  rw [hres2, hres, hsorted, List.take_take, min_self]

/-- Witness for C7 at a concrete two-row input with `k = 1`. -/
theorem compact_aggregated_costs_idempotent_witness :
    (compact_aggregated_costs
        (compact_aggregated_costs [sampleRowA, sampleRowB] 1 "d" emptyStore).1
        1 "e" emptyStore).1
      = (compact_aggregated_costs [sampleRowA, sampleRowB] 1 "d" emptyStore).1 :=
  compact_aggregated_costs_idempotent [sampleRowA, sampleRowB] 1 "d" "e"
    emptyStore emptyStore (by decide)

/-- C3 counterexample: the two sample rows in either order are the same
set (a permutation), but `build_cost_table` emits its table lines in input
order, so the two reports differ. -/
theorem build_cost_table_order_dependent :
    ([sampleRowA, sampleRowB] : List Row).Perm [sampleRowB, sampleRowA] ∧
    ((build_cost_table noParse
        (.rows [sampleRowA, sampleRowB]) "default" emptyStore).1.toOption
      ≠ (build_cost_table noParse
        (.rows [sampleRowB, sampleRowA]) "default" emptyStore).1.toOption) :=
  ⟨List.Perm.swap sampleRowB sampleRowA [], by decide⟩

/-- C3 amended: the report text is a deterministic function of the input
row sequence alone — independent of the session identifier and of the
prior Session Store state — but inputs equal only as sets may render
different (table-section) text. -/
theorem build_cost_table_deterministic (parse : String → Option (List Row))
    (input : BuildInput) (sid sid' : String) (st st' : Store) :
    (build_cost_table parse input sid st).1
      = (build_cost_table parse input sid' st').1 := by
  unfold build_cost_table
  cases resolveInput parse input with
  | none => rfl
  | some aggregated =>
    by_cases he : aggregated.isEmpty
    · simp [he]
    · simp only [he, Bool.false_eq_true, if_false]
      cases buildNarrative aggregated <;> rfl

/-- C8: on empty input — an empty row list, or a string that parses to an
empty list — `build_cost_table` returns the fixed text and the Session
Store is exactly unchanged. -/
theorem build_cost_table_empty_input (parse : String → Option (List Row))
    (sid : String) (st : Store) :
    (build_cost_table parse (.rows []) sid st = (.ok "No cost data available.", st)) ∧
    (∀ s : String, parse s = some [] →
      build_cost_table parse (.str s) sid st = (.ok "No cost data available.", st)) := by
  constructor
  · rfl
  · intro s hs
    simp [build_cost_table, resolveInput, hs]

/-- Witness for C8 on a concrete parse function and serialized input. -/
theorem build_cost_table_empty_input_witness :
    build_cost_table (fun _ => some []) (.str "[]") "default" emptyStore
      = (.ok "No cost data available.", emptyStore) :=
  (build_cost_table_empty_input (fun _ => some []) "default" emptyStore).2 "[]" rfl

/-- Frame of `_get_session_memory` on other session ids. -/
theorem get_session_memory_frame (s s' : String) (st : Store) (h : s' ≠ s) :
    (_get_session_memory s st).2 s' = st s' := by
  unfold _get_session_memory
  cases st s <;> simp [setStore, h]

/-- On an existing session id, `_get_session_memory` returns the store
unchanged. -/
theorem get_session_memory_existing (s : String) (st : Store) (m : SessionMemory)
    (h : st s = some m) : (_get_session_memory s st).2 = st := by
  unfold _get_session_memory
  simp only [h]

/-- On a missing session id, `_get_session_memory` installs the fresh
all-`None` memory. -/
theorem get_session_memory_creates (s : String) (st : Store) (h : st s = none) :
    (_get_session_memory s st).2 s = some freshMemory := by
  unfold _get_session_memory
  simp [h, setStore]

/-- The store returned by `get_last_summary` is exactly the one produced
by its `_get_session_memory` call. -/
theorem get_last_summary_store (s : String) (st : Store) :
    (get_last_summary s st).2 = (_get_session_memory s st).2 := by
  simp only [get_last_summary]
  split
  · rfl
  · split <;> rfl

/-- C6 counterexample: retrieving on a session id the store has never
seen lazily creates that session's memory, so the Session Store does not
stay exactly as it was. -/
theorem get_last_summary_mutates_on_first_access :
    emptyStore "default" = none ∧
    (get_last_summary "default" emptyStore).2 "default" = some freshMemory ∧
    (get_last_summary "default" emptyStore).2 ≠ emptyStore := by
  refine ⟨rfl, rfl, fun h => ?_⟩
  exact Option.noConfusion (congrFun h "default")

/-- C6 amended: `get_last_summary` writes no field and touches no other
session; on an already-present session id the store is exactly unchanged,
and on an absent one the only change is the lazy creation of the fresh
all-`None` memory for that id. -/
theorem get_last_summary_no_mutation_except_lazy_creation (s : String) (st : Store) :
    (∀ s', s' ≠ s → (get_last_summary s st).2 s' = st s') ∧
    (∀ m, st s = some m → (get_last_summary s st).2 = st) ∧
    (st s = none → (get_last_summary s st).2 s = some freshMemory) := by
  refine ⟨?_, ?_, ?_⟩
  · intro s' hs'
    rw [get_last_summary_store]
    exact get_session_memory_frame s s' st hs'
  · intro m hm
    rw [get_last_summary_store]
    exact get_session_memory_existing s st m hm
  · intro hn
    rw [get_last_summary_store]
    exact get_session_memory_creates s st hn

/-- Witness for C6's amended theorem at concrete stores. -/
theorem get_last_summary_no_mutation_witness :
    ((get_last_summary "a" (setStore emptyStore "a" freshMemory)).2 "c"
      = setStore emptyStore "a" freshMemory "c") ∧
    ((get_last_summary "a" (setStore emptyStore "a" freshMemory)).2
      = setStore emptyStore "a" freshMemory) ∧
    ((get_last_summary "b" emptyStore).2 "b" = some freshMemory) := by
  refine ⟨?_, ?_, ?_⟩
  · exact (get_last_summary_no_mutation_except_lazy_creation "a"
      (setStore emptyStore "a" freshMemory)).1 "c" (by decide)
  · exact (get_last_summary_no_mutation_except_lazy_creation "a"
      (setStore emptyStore "a" freshMemory)).2.1 freshMemory rfl
  · exact (get_last_summary_no_mutation_except_lazy_creation "b" emptyStore).2.2 rfl

/-- The memory handed out by `_get_session_memory` is the stored one, or
fresh when absent. -/
theorem get_session_memory_mem (s : String) (st : Store) :
    (_get_session_memory s st).1 = memOrFresh st s := by
  unfold _get_session_memory memOrFresh
  cases st s <;> rfl

/-- The value returned by `get_last_summary`, as a function of the
session's (possibly fresh) memory. -/
theorem get_last_summary_val (s : String) (st : Store) :
    (get_last_summary s st).1 =
      match (memOrFresh st s).last_summary with
      | none => noSummarySentinel
      | some summary => if summary = "" then noSummarySentinel else summary := by
  simp only [get_last_summary, get_session_memory_mem]
  split
  · rfl
  · split <;> rfl

/-- On the success path (parsed, non-empty, no `KeyError`),
`build_cost_table` stores the returned report — a non-empty string — as
the session's `last_summary`. -/
theorem build_cost_table_stores (parse : String → Option (List Row))
    (input : BuildInput) (s : String) (st : Store) (out : String) (st' : Store)
    (rows : List Row) (hr : resolveInput parse input = some rows)
    (hne : rows ≠ []) (hb : build_cost_table parse input s st = (.ok out, st')) :
    st' s = some { memOrFresh st s with last_summary := some out } ∧ out ≠ "" := by
  have hf : rows.isEmpty = false := by
    cases rows with
    | nil => exact absurd rfl hne
    | cons a l => rfl
  unfold build_cost_table at hb
  rw [hr] at hb
  simp only [hf, Bool.false_eq_true, if_false] at hb
  cases hn : buildNarrative rows with
  | error e => rw [hn] at hb; simp [Prod.ext_iff] at hb
  | ok narrative =>
    rw [hn] at hb
    simp only [Prod.ext_iff, Except.ok.injEq] at hb
    obtain ⟨h1, h2⟩ := hb
    constructor
    · rw [← h2]
      simp [setStore, get_session_memory_mem]
      simpa using h1
    · rw [← h1]
      intro hemp
      have hlen := congrArg String.length hemp
      have h2nl : ("\n\n" : String).length = 2 := rfl
      simp only [String.length_append, h2nl, String.length_empty] at hlen
      omega

/-- Reduction of a successful monadic bind in `Except`. -/
theorem exceptBindOk (a : α) (f : α → Except ε β) :
    (Except.ok a : Except ε α) >>= f = f a := rfl

/-- Reduction of `pure` in `Except`. -/
theorem exceptPureOk (a : α) : (pure a : Except ε α) = Except.ok a := rfl

/-- When every remaining row has its `total_cost` key, the `max` scan
succeeds and returns the running best or an element of the list. -/
theorem pyMaxLoop_ok (best : Row) (bk : ℚ) (l : List Row)
    (h : ∀ r ∈ l, r.total_cost.isSome) :
    ∃ t, pyMaxLoop best bk l = .ok t ∧ (t = best ∨ t ∈ l) := by
  induction l generalizing best bk with
  | nil => exact ⟨best, rfl, Or.inl rfl⟩
  | cons r rest ih =>
    obtain ⟨k, hk⟩ := Option.isSome_iff_exists.mp (h r (List.mem_cons_self r rest))
    have hrest : ∀ x ∈ rest, x.total_cost.isSome :=
      fun x hx => h x (List.mem_cons_of_mem r hx)
    by_cases hlt : bk < k
    · obtain ⟨t, ht, hmem⟩ := ih r k hrest
      refine ⟨t, by simp [pyMaxLoop, getItem, hk, exceptBindOk, hlt, ht], ?_⟩
      rcases hmem with h1 | h1
      · exact Or.inr (h1 ▸ List.mem_cons_self r rest)
      · exact Or.inr (List.mem_cons_of_mem r h1)
    · obtain ⟨t, ht, hmem⟩ := ih best bk hrest
      refine ⟨t, by simp [pyMaxLoop, getItem, hk, exceptBindOk, hlt, ht], ?_⟩
      rcases hmem with h1 | h1
      · exact Or.inl h1
      · exact Or.inr (List.mem_cons_of_mem r h1)

/-- When every row has its `category` and `total_cost` keys, the category
subtotal generator succeeds. -/
theorem sumCategoryTotal_ok (cat : String) (acc : ℚ) (l : List Row)
    (h : ∀ r ∈ l, r.category.isSome ∧ r.total_cost.isSome) :
    ∃ q, sumCategoryTotal cat acc l = .ok q := by
  induction l generalizing acc with
  | nil => exact ⟨acc, rfl⟩
  | cons r rest ih =>
    obtain ⟨hc, ht⟩ := h r (List.mem_cons_self r rest)
    obtain ⟨c, hcv⟩ := Option.isSome_iff_exists.mp hc
    obtain ⟨t, htv⟩ := Option.isSome_iff_exists.mp ht
    have hrest : ∀ x ∈ rest, x.category.isSome ∧ x.total_cost.isSome :=
      fun x hx => h x (List.mem_cons_of_mem r hx)
    by_cases hcat : c = cat
    · obtain ⟨q, hq⟩ := ih (acc + t) hrest
      exact ⟨q, by simp [sumCategoryTotal, getItem, hcv, htv, exceptBindOk, hcat, hq]⟩
    · obtain ⟨q, hq⟩ := ih acc hrest
      exact ⟨q, by simp [sumCategoryTotal, getItem, hcv, htv, exceptBindOk, hcat, hq]⟩

/-- When the input is non-empty and every row has the `region`, `category`
and `total_cost` keys, the narrative section raises no `KeyError`. -/
theorem buildNarrative_ok (rows : List Row) (hne : rows ≠ [])
    (h : ∀ r ∈ rows, r.region.isSome ∧ r.category.isSome ∧ r.total_cost.isSome) :
    ∃ s, buildNarrative rows = .ok s := by
  cases rows with
  | nil => exact absurd rfl hne
  | cons r rest =>
    obtain ⟨k, hk⟩ := Option.isSome_iff_exists.mp (h r (List.mem_cons_self r rest)).2.2
    obtain ⟨t, ht, hmem⟩ := pyMaxLoop_ok r k rest
      (fun x hx => (h x (List.mem_cons_of_mem r hx)).2.2)
    have htop : t ∈ r :: rest := by
      rcases hmem with h1 | h1
      · exact h1 ▸ List.mem_cons_self r rest
      · exact List.mem_cons_of_mem r h1
    obtain ⟨hreg, hcat, htc⟩ := h t htop
    obtain ⟨tr, htr⟩ := Option.isSome_iff_exists.mp hreg
    obtain ⟨tc, htcv⟩ := Option.isSome_iff_exists.mp hcat
    obtain ⟨tt, htt⟩ := Option.isSome_iff_exists.mp htc
    obtain ⟨qa, hqa⟩ := sumCategoryTotal_ok "aircraft" 0 (r :: rest)
      (fun x hx => ⟨(h x hx).2.1, (h x hx).2.2⟩)
    obtain ⟨qp, hqp⟩ := sumCategoryTotal_ok "personnel" 0 (r :: rest)
      (fun x hx => ⟨(h x hx).2.1, (h x hx).2.2⟩)
    obtain ⟨qe, hqe⟩ := sumCategoryTotal_ok "equipment" 0 (r :: rest)
      (fun x hx => ⟨(h x hx).2.1, (h x hx).2.2⟩)
    cases hres : buildNarrative (r :: rest) with
    | ok s => exact ⟨s, rfl⟩
    | error e =>
      exfalso
      simp only [buildNarrative, pyMaxByTotalCost, getItem, hk, ht, htr, htcv, htt,
        hqa, hqp, hqe, exceptBindOk, exceptPureOk] at hres
      exact Except.noConfusion hres

/-- C9: a non-empty row list in which every row has the `region`,
`category` and `total_cost` keys renders without raising; and the error
branch is reachable — a non-empty input with a row missing `total_cost`
raises a `KeyError` (the table section alone would not, since it reads
fields with `.get` defaults). -/
theorem build_cost_table_total_on_keyed_rows :
    (∀ rows : List Row, rows ≠ [] →
      (∀ r ∈ rows, r.region.isSome ∧ r.category.isSome ∧ r.total_cost.isSome) →
      ∀ (parse : String → Option (List Row)) (sid : String) (st : Store),
      ∃ out st', build_cost_table parse (.rows rows) sid st = (.ok out, st')) ∧
    (build_cost_table noParse (.rows [⟨some "A", some "aircraft", none, some 0⟩])
        "default" emptyStore
      = (.error (.keyError "total_cost"), emptyStore)) := by
  constructor
  · intro rows hne h parse sid st
    obtain ⟨narr, hnarr⟩ := buildNarrative_ok rows hne h
    have hf : rows.isEmpty = false := by
      cases rows with
      | nil => exact absurd rfl hne
      | cons a l => rfl
    have hb : build_cost_table parse (.rows rows) sid st
        = (.ok (joinNL (["Region | Category | Total Cost ($) | Hours",
            "---|---|---|---"] ++ rows.map rowLine) ++ "\n\n" ++ narr),
           setStore (_get_session_memory sid st).2 sid
             { (_get_session_memory sid st).1 with
                last_summary := some (joinNL (["Region | Category | Total Cost ($) | Hours",
                  "---|---|---|---"] ++ rows.map rowLine) ++ "\n\n" ++ narr) }) := by
      unfold build_cost_table
      simp only [resolveInput, hf, Bool.false_eq_true, if_false, hnarr]
    exact ⟨_, _, hb⟩
  · rfl

/-- Witness for C9's totality part at a concrete one-row input. -/
theorem build_cost_table_total_witness :
    ∃ out st', build_cost_table noParse (.rows [sampleRowA]) "d" emptyStore
      = (.ok out, st') :=
  build_cost_table_total_on_keyed_rows.1 [sampleRowA] (List.cons_ne_nil _ _)
    (by decide) noParse "d" emptyStore

/-- Writing a memory after `_get_session_memory` overwrites any lazily
created entry, so the net store change is a single keyed write. -/
theorem setStore_after_get (sid : String) (st : Store) (m : SessionMemory) :
    setStore (_get_session_memory sid st).2 sid m = setStore st sid m := by
  funext s'
  unfold _get_session_memory
  cases st sid with
  | some m0 => rfl
  | none => by_cases hs : s' = sid <;> simp [setStore, hs]

/-- Writing a memory whose `last_summary` agrees with the session's
previous (or fresh) one preserves the no-report-stored state. -/
theorem noSummaryStored_setStore (s sid : String) (st : Store) (m : SessionMemory)
    (hm : m.last_summary = (memOrFresh st sid).last_summary)
    (h : noSummaryStored s st) : noSummaryStored s (setStore st sid m) := by
  intro m' hm'
  by_cases hs : s = sid
  · subst hs
    rw [setStore, if_pos rfl] at hm'
    cases hm'
    rw [hm]
    unfold memOrFresh
    cases hst : st s with
    | none => rfl
    | some m0 => simpa using h m0 hst
  · rw [setStore, if_neg hs] at hm'
    exact h m' hm'

/-- Lazy creation of a session's memory preserves the no-report-stored
state of every session. -/
theorem noSummaryStored_get_session_memory (s sid : String) (st : Store)
    (h : noSummaryStored s st) : noSummaryStored s (_get_session_memory sid st).2 := by
  unfold _get_session_memory
  cases hst : st sid with
  | some m => exact h
  | none =>
    refine noSummaryStored_setStore s sid st freshMemory ?_ h
    unfold memOrFresh
    rw [hst]
    rfl

/-- `aggregate_costs` preserves the no-report-stored state: it never
writes `last_summary`. -/
theorem noSummaryStored_aggregate (s sid : String) (st : Store)
    (records : List Record) (h : noSummaryStored s st) :
    noSummaryStored s (aggregate_costs records sid st).2 := by
  unfold aggregate_costs
  cases ht : buildTotals records [] with
  | error e => exact h
  | ok totals =>
    show noSummaryStored s (setStore (_get_session_memory sid st).2 sid _)
    rw [setStore_after_get]
    exact noSummaryStored_setStore s sid st _ (by rw [get_session_memory_mem]) h

/-- `compact_aggregated_costs` preserves the no-report-stored state: it
never writes `last_summary`. -/
theorem noSummaryStored_compact (s sid : String) (st : Store) (A : List Row)
    (k : Int) (h : noSummaryStored s st) :
    noSummaryStored s (compact_aggregated_costs A k sid st).2 := by
  unfold compact_aggregated_costs
  show noSummaryStored s (setStore (_get_session_memory sid st).2 sid _)
  rw [setStore_after_get]
  exact noSummaryStored_setStore s sid st _ (by rw [get_session_memory_mem]) h

/-- `get_last_summary` preserves the no-report-stored state. -/
theorem noSummaryStored_get_last (s sid : String) (st : Store)
    (h : noSummaryStored s st) : noSummaryStored s (get_last_summary sid st).2 := by
  rw [get_last_summary_store]
  exact noSummaryStored_get_session_memory s sid st h

/-- A render for a different session id preserves the no-report-stored
state of `s`. -/
theorem noSummaryStored_render_other (s sid : String) (hs : sid ≠ s) (st : Store)
    (parse : String → Option (List Row)) (input : BuildInput)
    (h : noSummaryStored s st) :
    noSummaryStored s (build_cost_table parse input sid st).2 := by
  unfold build_cost_table
  cases hr : resolveInput parse input with
  | none => exact h
  | some rows =>
    by_cases he : rows.isEmpty
    · simp only [he, if_true]
      exact h
    · simp only [he, Bool.false_eq_true, if_false]
      cases hn : buildNarrative rows with
      | error e => exact h
      | ok narrative =>
        show noSummaryStored s (setStore (_get_session_memory sid st).2 sid _)
        rw [setStore_after_get]
        intro m' hm'
        rw [setStore, if_neg (fun hss => hs hss.symm)] at hm'
        exact h m' hm'

/-- C4: the empty store has no report stored for any session, every
pipeline operation other than a render for `s` itself preserves that
state — so it holds before any `build_cost_table` call for `s` — and in
that state `get_last_summary` returns the fixed sentinel; after a
`build_cost_table` call for `s` that produced a report, it returns
exactly that call's output. -/
theorem get_last_summary_sentinel_then_report :
    (∀ s : String, noSummaryStored s emptyStore) ∧
    (∀ (s sid : String) (st : Store) (records : List Record),
      noSummaryStored s st → noSummaryStored s (aggregate_costs records sid st).2) ∧
    (∀ (s sid : String) (st : Store) (A : List Row) (k : Int),
      noSummaryStored s st →
      noSummaryStored s (compact_aggregated_costs A k sid st).2) ∧
    (∀ (s sid : String) (st : Store), noSummaryStored s st →
      noSummaryStored s (get_last_summary sid st).2) ∧
    (∀ (s sid : String) (st : Store) (parse : String → Option (List Row))
        (input : BuildInput), sid ≠ s → noSummaryStored s st →
      noSummaryStored s (build_cost_table parse input sid st).2) ∧
    (∀ (s : String) (st : Store), noSummaryStored s st →
      (get_last_summary s st).1 = noSummarySentinel) ∧
    (∀ (parse : String → Option (List Row)) (input : BuildInput) (s : String)
        (st : Store) (out : String) (st' : Store) (rows : List Row),
      resolveInput parse input = some rows → rows ≠ [] →
      build_cost_table parse input s st = (.ok out, st') →
      (get_last_summary s st').1 = out) := by
  refine ⟨?_, ?_, ?_, ?_, ?_, ?_, ?_⟩
  · intro s m hm
    exact Option.noConfusion hm
  · exact noSummaryStored_aggregate
  · exact noSummaryStored_compact
  · exact noSummaryStored_get_last
  · intro s sid st parse input hs
    exact noSummaryStored_render_other s sid hs st parse input
  · intro s st hns
    rw [get_last_summary_val]
    cases hm : (memOrFresh st s).last_summary with
    | none => rfl
    | some v =>
      exfalso
      unfold memOrFresh at hm
      cases hs : st s with
      | none => rw [hs] at hm; exact Option.noConfusion hm
      | some m =>
        rw [hs] at hm
        simp only [Option.getD_some] at hm
        rw [hns m hs] at hm
        exact Option.noConfusion hm
  · intro parse input s st out st' rows hr hne hb
    obtain ⟨hsts, hout⟩ := build_cost_table_stores parse input s st out st' rows hr hne hb
    rw [get_last_summary_val]
    unfold memOrFresh
    rw [hsts]
    simp [hout]

/-- Witness for C4: the sentinel on a store reached without rendering for
the session, and the exact report after a concrete render. -/
theorem get_last_summary_sentinel_then_report_witness :
    ((get_last_summary "default"
        (compact_aggregated_costs [sampleRowB] 1 "default" emptyStore).2).1
      = noSummarySentinel) ∧
    ((get_last_summary "default"
        (build_cost_table noParse (.rows [sampleRowA]) "default" emptyStore).2).1
      = ((build_cost_table noParse (.rows [sampleRowA]) "default"
          emptyStore).1.toOption.getD "")) := by
  constructor
  · exact get_last_summary_sentinel_then_report.2.2.2.2.2.1 "default" _
      (get_last_summary_sentinel_then_report.2.2.1 "default" "default" emptyStore
        [sampleRowB] 1 (get_last_summary_sentinel_then_report.1 "default"))
  · exact get_last_summary_sentinel_then_report.2.2.2.2.2.2 noParse
      (.rows [sampleRowA]) "default" emptyStore _ _ [sampleRowA] rfl
      (List.cons_ne_nil _ _) rfl

/-- C10: each pipeline stage's only store effect is to replace the given
session's memory by its previous (or lazily created fresh) memory updated
at that stage's designated field: `aggregate_costs` at `last_aggregated`
(no write at all when it raises), `compact_aggregated_costs` at
`last_compacted`, and `build_cost_table` at `last_summary` (no write on
the parse-failure, empty-input and `KeyError` paths). Every other field
and every other session id is untouched. -/
theorem pipeline_stages_write_only_own_field (sid : String) (st : Store) :
    (∀ records : List Record,
      (aggregate_costs records sid st).2 = st ∨
      ∃ v, (aggregate_costs records sid st).2
        = setStore st sid { memOrFresh st sid with last_aggregated := some v }) ∧
    (∀ (A : List Row) (k : Int),
      ∃ v, (compact_aggregated_costs A k sid st).2
        = setStore st sid { memOrFresh st sid with last_compacted := some v }) ∧
    (∀ (parse : String → Option (List Row)) (input : BuildInput),
      (build_cost_table parse input sid st).2 = st ∨
      ∃ v, (build_cost_table parse input sid st).2
        = setStore st sid { memOrFresh st sid with last_summary := some v }) := by
  refine ⟨?_, ?_, ?_⟩
  · intro records
    unfold aggregate_costs
    cases ht : buildTotals records [] with
    | error e => exact Or.inl rfl
    | ok totals =>
      refine Or.inr ⟨totals.mergeSort aggLE, ?_⟩
      simp only [setStore_after_get, get_session_memory_mem]
  · intro A k
    refine ⟨pySliceTo k (A.mergeSort rowLE), ?_⟩
    unfold compact_aggregated_costs
    simp only [setStore_after_get, get_session_memory_mem]
  · intro parse input
    unfold build_cost_table
    cases hr : resolveInput parse input with
    | none => exact Or.inl rfl
    | some rows =>
      by_cases he : rows.isEmpty
      · left
        simp [he]
      · simp only [he, Bool.false_eq_true, if_false]
        cases hn : buildNarrative rows with
        | error e => exact Or.inl rfl
        | ok narrative =>
          right
          refine ⟨joinNL (["Region | Category | Total Cost ($) | Hours",
            "---|---|---|---"] ++ rows.map rowLine) ++ "\n\n" ++ narrative, ?_⟩
          simp only [setStore_after_get, get_session_memory_mem]

/-- Keys present after a bucket update: the old keys plus the new key. -/
theorem addToBucket_keys (acc : List AggRow) (k : Key) (c h : ℚ) (k' : Key) :
    k' ∈ (addToBucket acc k c h).map rowKey ↔ k' ∈ acc.map rowKey ∨ k' = k := by
  induction acc with
  | nil => simp [addToBucket, rowKey]
  | cons row rest ih =>
    by_cases hk : rowKey row = k
    · simp only [addToBucket, hk, if_true, List.map_cons, List.mem_cons]
      have hkey : rowKey { row with total_cost := row.total_cost + c, hours := row.hours + h } = rowKey row := rfl
      rw [hkey, hk]
      tauto
    · simp only [addToBucket, hk, if_false, List.map_cons, List.mem_cons, ih]
      tauto

/-- A bucket update preserves distinctness of keys. -/
theorem addToBucket_nodup (acc : List AggRow) (k : Key) (c h : ℚ)
    (hnd : (acc.map rowKey).Nodup) :
    ((addToBucket acc k c h).map rowKey).Nodup := by
  induction acc with
  | nil => simp [addToBucket]
  | cons row rest ih =>
    simp only [List.map_cons, List.nodup_cons] at hnd
    obtain ⟨hrow, hrest⟩ := hnd
    by_cases hk : rowKey row = k
    · simp only [addToBucket, hk, if_true, List.map_cons, List.nodup_cons]
      have hkey : rowKey { row with total_cost := row.total_cost + c, hours := row.hours + h } = rowKey row := rfl
      exact ⟨by rw [hkey]; exact hrow, hrest⟩
    · simp only [addToBucket, hk, if_false, List.map_cons, List.nodup_cons]
      refine ⟨?_, ih hrest⟩
      intro hmem
      rw [addToBucket_keys] at hmem
      rcases hmem with h1 | h1
      · exact hrow h1
      · exact hk h1

/-- A bucket update adds exactly the record's cost to the grand total. -/
theorem addToBucket_sum (acc : List AggRow) (k : Key) (c h : ℚ) :
    ((addToBucket acc k c h).map AggRow.total_cost).sum
      = (acc.map AggRow.total_cost).sum + c := by
  induction acc with
  | nil => simp [addToBucket]
  | cons row rest ih =>
    by_cases hk : rowKey row = k
    · simp only [addToBucket, hk, if_true, List.map_cons, List.sum_cons]
      ring
    · simp only [addToBucket, hk, if_false, List.map_cons, List.sum_cons, ih]
      ring

/-- When every record's numeric fields coerce, the aggregation loop
completes without raising. -/
theorem buildTotals_ok_of_coercible (records : List Record) (acc : List AggRow)
    (h : ∀ r ∈ records, (coerceField r.cost).isSome ∧ (coerceField r.hours).isSome) :
    ∃ out, buildTotals records acc = .ok out := by
  induction records generalizing acc with
  | nil => exact ⟨acc, rfl⟩
  | cons r rest ih =>
    obtain ⟨c, hc⟩ :=
      Option.isSome_iff_exists.mp (h r (List.mem_cons_self r rest)).1
    obtain ⟨hv, hhv⟩ :=
      Option.isSome_iff_exists.mp (h r (List.mem_cons_self r rest)).2
    obtain ⟨out, hout⟩ := ih (addToBucket acc (recKey r) c hv)
      (fun x hx => h x (List.mem_cons_of_mem r hx))
    exact ⟨out, by simp only [buildTotals, hc, hhv, hout]⟩

/-- When some record's `cost` or `hours` does not coerce, the aggregation
loop raises `InvalidRecordField` (the spec's error kind). -/
theorem buildTotals_error_of_not_coercible (records : List Record)
    (acc : List AggRow)
    (h : ¬ ∀ r ∈ records, (coerceField r.cost).isSome ∧ (coerceField r.hours).isSome) :
    buildTotals records acc = .error .InvalidRecordField := by
  induction records generalizing acc with
  | nil => exact absurd (by simp) h
  | cons r rest ih =>
    by_cases hr : (coerceField r.cost).isSome ∧ (coerceField r.hours).isSome
    · obtain ⟨c, hc⟩ := Option.isSome_iff_exists.mp hr.1
      obtain ⟨hv, hhv⟩ := Option.isSome_iff_exists.mp hr.2
      have hrest : ¬ ∀ x ∈ rest,
          (coerceField x.cost).isSome ∧ (coerceField x.hours).isSome := by
        intro hall
        exact h (fun x hx => by
          rcases List.mem_cons.mp hx with h1 | h1
          · exact h1 ▸ hr
          · exact hall x h1)
      simp only [buildTotals, hc, hhv, ih _ hrest]
    · cases hcost : coerceField r.cost with
      | none => simp only [buildTotals, hcost]
      | some c =>
        have hhours : coerceField r.hours = none := by
          cases hh : coerceField r.hours with
          | none => rfl
          | some hv =>
            exact absurd ⟨by simp [hcost], by simp [hh]⟩ hr
        simp only [buildTotals, hcost, hhours]

/-- The keys of the aggregation loop's output are the starting keys plus
the keys of the processed records. -/
theorem buildTotals_keys (records : List Record) (acc out : List AggRow)
    (hok : buildTotals records acc = .ok out) (k' : Key) :
    k' ∈ out.map rowKey ↔ k' ∈ acc.map rowKey ∨ k' ∈ records.map recKey := by
  induction records generalizing acc with
  | nil =>
    simp only [buildTotals, Except.ok.injEq] at hok
    subst hok
    simp
  | cons r rest ih =>
    cases hc : coerceField r.cost with
    | none => rw [buildTotals, hc] at hok; exact absurd hok (by simp)
    | some c =>
      cases hh : coerceField r.hours with
      | none => rw [buildTotals, hc, hh] at hok; exact absurd hok (by simp)
      | some hv =>
        rw [buildTotals, hc, hh] at hok
        rw [ih (addToBucket acc (recKey r) c hv) hok, addToBucket_keys]
        simp only [List.map_cons, List.mem_cons]
        tauto

/-- The aggregation loop keeps bucket keys distinct. -/
theorem buildTotals_nodup (records : List Record) (acc out : List AggRow)
    (hok : buildTotals records acc = .ok out)
    (hnd : (acc.map rowKey).Nodup) : (out.map rowKey).Nodup := by
  induction records generalizing acc with
  | nil =>
    simp only [buildTotals, Except.ok.injEq] at hok
    subst hok
    exact hnd
  | cons r rest ih =>
    cases hc : coerceField r.cost with
    | none => rw [buildTotals, hc] at hok; exact absurd hok (by simp)
    | some c =>
      cases hh : coerceField r.hours with
      | none => rw [buildTotals, hc, hh] at hok; exact absurd hok (by simp)
      | some hv =>
        rw [buildTotals, hc, hh] at hok
        exact ih (addToBucket acc (recKey r) c hv) hok
          (addToBucket_nodup acc (recKey r) c hv hnd)

/-- The aggregation loop's grand total is the starting total plus the sum
of the processed records' (coerced) costs. -/
theorem buildTotals_sum (records : List Record) (acc out : List AggRow)
    (hok : buildTotals records acc = .ok out) :
    (out.map AggRow.total_cost).sum
      = (acc.map AggRow.total_cost).sum + (records.map recCost).sum := by
  induction records generalizing acc with
  | nil =>
    simp only [buildTotals, Except.ok.injEq] at hok
    subst hok
    simp
  | cons r rest ih =>
    cases hc : coerceField r.cost with
    | none => rw [buildTotals, hc] at hok; exact absurd hok (by simp)
    | some c =>
      cases hh : coerceField r.hours with
      | none => rw [buildTotals, hc, hh] at hok; exact absurd hok (by simp)
      | some hv =>
        rw [buildTotals, hc, hh] at hok
        rw [ih (addToBucket acc (recKey r) c hv) hok, addToBucket_sum]
        have hrc : recCost r = c := by simp [recCost, hc]
        simp only [List.map_cons, List.sum_cons, hrc]
        ring

/-- C1: on coercible input, `aggregate_costs` succeeds and returns exactly
one row per distinct (region, category) pair present in the records, and
the sum of the returned `total_cost` values equals the sum of the records'
costs (missing `cost` fields counting as 0.0). -/
theorem aggregate_costs_groups_and_sums (records : List Record) (sid : String)
    (st : Store)
    (h : ∀ r ∈ records, (coerceField r.cost).isSome ∧ (coerceField r.hours).isSome) :
    ∃ out st', aggregate_costs records sid st = (.ok out, st') ∧
      (out.map rowKey).Nodup ∧
      (∀ k : Key, k ∈ out.map rowKey ↔ k ∈ records.map recKey) ∧
      (out.map AggRow.total_cost).sum = (records.map recCost).sum := by
  obtain ⟨totals, htot⟩ := buildTotals_ok_of_coercible records [] h
  have hb : aggregate_costs records sid st
      = (.ok (totals.mergeSort aggLE),
         setStore (_get_session_memory sid st).2 sid
           { (_get_session_memory sid st).1 with
              last_aggregated := some (totals.mergeSort aggLE) }) := by
    unfold aggregate_costs
    simp only [htot]
  have hperm : (totals.mergeSort aggLE).Perm totals := totals.mergeSort_perm aggLE
  have hkeys : ((totals.mergeSort aggLE).map rowKey).Perm (totals.map rowKey) :=
    hperm.map rowKey
  refine ⟨totals.mergeSort aggLE, _, hb, ?_, ?_, ?_⟩
  · exact hkeys.nodup_iff.mpr (buildTotals_nodup records [] totals htot (by simp))
  · intro k
    rw [hkeys.mem_iff, buildTotals_keys records [] totals htot k]
    simp
  · rw [(hperm.map AggRow.total_cost).sum_eq, buildTotals_sum records [] totals htot]
    simp

/-- Witness for C1 at a concrete record list. -/
theorem aggregate_costs_groups_and_sums_witness :
    ∃ out st', aggregate_costs sampleRecords "d" emptyStore = (.ok out, st') ∧
      (out.map rowKey).Nodup ∧
      (∀ k : Key, k ∈ out.map rowKey ↔ k ∈ sampleRecords.map recKey) ∧
      (out.map AggRow.total_cost).sum = (sampleRecords.map recCost).sum :=
  aggregate_costs_groups_and_sums sampleRecords "d" emptyStore (by decide)

/-- C5: `aggregate_costs` never fails when every record's `cost` and
`hours` coerce to a number (missing fields defaulting to 0.0), and
reports the explicit `InvalidRecordField` failure — with no store write —
whenever some record's numeric field cannot be coerced. -/
theorem aggregate_costs_error_contract (records : List Record) (sid : String)
    (st : Store) :
    ((∀ r ∈ records, (coerceField r.cost).isSome ∧ (coerceField r.hours).isSome) →
      ∃ out st', aggregate_costs records sid st = (.ok out, st')) ∧
    ((¬ ∀ r ∈ records, (coerceField r.cost).isSome ∧ (coerceField r.hours).isSome) →
      aggregate_costs records sid st = (.error .InvalidRecordField, st)) := by
  constructor
  · intro h
    obtain ⟨totals, htot⟩ := buildTotals_ok_of_coercible records [] h
    have hb : aggregate_costs records sid st
        = (.ok (totals.mergeSort aggLE),
           setStore (_get_session_memory sid st).2 sid
             { (_get_session_memory sid st).1 with
                last_aggregated := some (totals.mergeSort aggLE) }) := by
      unfold aggregate_costs
      simp only [htot]
    exact ⟨_, _, hb⟩
  · intro h
    unfold aggregate_costs
    rw [buildTotals_error_of_not_coercible records [] h]

/-- Witness for C5: success on coercible records, `InvalidRecordField` on
a record with a non-numeric cost. -/
theorem aggregate_costs_error_contract_witness :
    (∃ out st', aggregate_costs sampleRecords "d" emptyStore = (.ok out, st')) ∧
    (aggregate_costs [badRecord] "d" emptyStore
      = (.error .InvalidRecordField, emptyStore)) :=
  ⟨(aggregate_costs_error_contract sampleRecords "d" emptyStore).1 (by decide),
   (aggregate_costs_error_contract [badRecord] "d" emptyStore).2 (by decide)⟩

end WildfireAgent
